import Mathlib

/-!
Shallow embedding of the graph-entity hydration module
(`neo4j/v1/types/graph.py`): Node, Relationship and Path values, the
entity property/equality/hash contracts, and the Path decompression
algorithm `Path.hydrate`.

Python dictionaries of properties are modelled as association lists; a
property value received from the wire is an `Option Val` (`none` models
Python `None`).  Python's duck-typed `==` (which catches
`AttributeError`) is modelled by a universe `PyVal` of the values an
entity can be compared against, with attribute lookup returning an
`Option` (`none` models `AttributeError`).  The in-place mutation of
unbound relationships during path decompression is modelled by explicit
state passing: the relationship list is threaded through the loop and
the accumulated entity list stores indices into it, so aliasing between
the path under construction and the mutated store is preserved exactly.
-/

namespace NeoGraph

/-- Scalar property values (enough of Python's value universe for the
properties of graph entities). -/
inductive Val where
  | str (s : String)
  | int (n : Int)
deriving DecidableEq

/-- A Python dict of non-null properties, as an association list. -/
abbrev Props := List (String × Val)

/-- A Python dict of wire-received properties whose values may be `None`. -/
abbrev PropsIn := List (String × Option Val)

/-- Overwrite-or-append of one key/value pair, the semantics of updating
one key of a Python dict. -/
def dictUpdate (d : List (String × Option Val)) (kv : String × Option Val) :
    List (String × Option Val) :=
  if d.any (fun p => p.1 == kv.1) then
    d.map (fun p => if p.1 == kv.1 then kv else p)
  else
    d ++ [kv]

/-- Model of `dict(properties, **kwproperties)`: the base dict updated by
each keyword pair in turn. -/
def dictMerge (base kw : PropsIn) : PropsIn :=
  kw.foldl dictUpdate base

/-- Drop every entry whose value is `None`, keeping the rest: the filter
`(k, v) for k, v in properties.items() if v is not None`. -/
def dropNull (props : PropsIn) : Props :=
  props.filterMap (fun p => p.2.map (fun v => (p.1, v)))

/-- `Entity.__init__`: merge the base mapping with the keyword overrides,
then drop the null-valued entries. -/
def entityProperties (properties kwproperties : PropsIn) : Props :=
  dropNull (dictMerge properties kwproperties)

/-- `Entity.get(name, default)`: `self.properties.get(name, default)`. -/
def Entity.get (properties : Props) (name : String) (default : Option Val) :
    Option Val :=
  match properties.find? (fun p => p.1 == name) with
  | some p => some p.2
  | none => default

/-- `Entity.__getitem__(name)`: `self.properties.get(name)`, whose dict
default is Python `None`. -/
def Entity.getItem (properties : Props) (name : String) : Option Val :=
  match properties.find? (fun p => p.1 == name) with
  | some p => some p.2
  | none => none

/-- `Entity.__contains__(name)`: `name in self.properties`. -/
def Entity.contains (properties : Props) (name : String) : Bool :=
  properties.any (fun p => p.1 == name)

/-- `Entity.__len__`: `len(self.properties)`. -/
def Entity.len (properties : Props) : Nat :=
  properties.length

/-- `Node`: id (absent before hydration), label set (modelled as the list
of labels) and filtered properties. -/
structure Node where
  id : Option Int
  labels : List String
  properties : Props
deriving DecidableEq

/-- `Node.hydrate(id_, labels, properties)`: build the node and assign its
id.  Hydration passes no keyword properties. -/
def Node.hydrate (id_ : Int) (labels : List String) (properties : PropsIn) :
    Node :=
  { id := some id_, labels := labels, properties := entityProperties properties [] }

/-- `Relationship`: id, endpoint node identifiers (absent in the unbound
form), type and filtered properties. -/
structure Relationship where
  id : Option Int
  start : Option Int
  «end» : Option Int
  type : String
  properties : Props
deriving DecidableEq

/-- `Relationship.hydrate(id_, start, end, type, properties)`. -/
def Relationship.hydrate (id_ : Int) (start «end» : Option Int) (type : String)
    (properties : PropsIn) : Relationship :=
  { id := some id_, start := start, «end» := «end», type := type,
    properties := entityProperties properties [] }

/-- `Relationship.hydrate_unbound(id_, type, properties)`: endpoints left
unresolved (`None`). -/
def Relationship.hydrate_unbound (id_ : Int) (type : String)
    (properties : PropsIn) : Relationship :=
  Relationship.hydrate id_ none none type properties

/-- An entry of the heterogeneous entity list Python builds during path
decompression and passes to `Path.__init__`. -/
inductive PEntity where
  | n (node : Node)
  | r (rel : Relationship)
deriving DecidableEq

/-- The entry if it is a Node (Python would simply find a Node object
there; in the typed model the projection is partial). -/
def PEntity.asNode? : PEntity → Option Node
  | .n nd => some nd
  | .r _ => none

/-- The entry if it is a Relationship. -/
def PEntity.asRel? : PEntity → Option Relationship
  | .r rl => some rl
  | .n _ => none

/-- Python slice `xs[0::2]`: the elements at even positions. -/
def sliceEven {α : Type} : List α → List α
  | [] => []
  | [a] => [a]
  | a :: _ :: rest => a :: sliceEven rest

/-- Python slice `xs[1::2]`: the elements at odd positions. -/
def sliceOdd {α : Type} : List α → List α
  | [] => []
  | [_] => []
  | _ :: b :: rest => b :: sliceOdd rest

/-- Python list indexing `xs[i]` with a signed index: non-negative
indices from the front, negative indices wrap from the back,
out-of-range raises (`none`). -/
def pyGet {α : Type} (xs : List α) (i : Int) : Option α :=
  if 0 ≤ i then xs.get? i.toNat
  else if i.natAbs ≤ xs.length then xs.get? (xs.length - i.natAbs)
  else none

/-- `Path`: `Path.__init__(start_node, *rels_and_nodes)` stores
`nodes = (start_node,) + rels_and_nodes[1::2]` and
`relationships = rels_and_nodes[0::2]`; the leading start node is kept
as a separate field so that the node tuple is nonempty by construction,
as it is for every Path the module builds. -/
structure Path where
  start_node : Node
  nodes_rest : List Node
  relationships : List Relationship
deriving DecidableEq

/-- Apply a partial function to every element, failing if it fails
anywhere (`Option`-valued map over a list). -/
def optMapList {α β : Type} (f : α → Option β) : List α → Option (List β)
  | [] => some []
  | a :: rest =>
    match f a, optMapList f rest with
    | some b, some bs => some (b :: bs)
    | _, _ => none

/-- `Path.__init__`: split the trailing entity list into its odd
positions (nodes) and even positions (relationships).  Python stores
whatever objects sit there; in the typed model an entity of the wrong
kind at some position makes construction fail, which never happens for
the alternating lists `Path.hydrate` builds. -/
def Path.init (start_node : Node) (rels_and_nodes : List PEntity) :
    Option Path :=
  match optMapList PEntity.asNode? (sliceOdd rels_and_nodes),
      optMapList PEntity.asRel? (sliceEven rels_and_nodes) with
  | some nr, some rs => some ⟨start_node, nr, rs⟩
  | _, _ => none

/-- The `nodes` tuple of a Path. -/
def Path.nodes (p : Path) : List Node :=
  p.start_node :: p.nodes_rest

/-- `Path.start`: `self.nodes[0]`. -/
def Path.start (p : Path) : Node :=
  p.start_node

/-- `Path.end`: `self.nodes[-1]`, total because the node tuple is
nonempty by construction. -/
def Path.«end» (p : Path) : Node :=
  List.getLast (p.start_node :: p.nodes_rest) (List.cons_ne_nil _ _)

/-- `Path.__len__`: `len(self.relationships)`. -/
def Path.len (p : Path) : Nat :=
  p.relationships.length

/-- State of the decompression loop in `Path.hydrate`: the relationship
store being mutated in place, the running `last_node`, and the entity
list accumulated after the leading start node.  A relationship entry is
recorded as its index (`Sum.inl`) into the evolving store, so a later
mutation of the same relationship object is still seen by an earlier
occurrence, exactly as with Python object references. -/
structure HydrateState where
  rels : List Relationship
  last_node : Node
  entities : List (Sum Nat Node)
deriving DecidableEq

/-- One iteration of the loop in `Path.hydrate` on the pair
`(rel_index, node_index)`: assert `rel_index != 0`, fetch
`next_node = nodes[sequence[2*i+1]]`, select the relationship by the
magnitude of `rel_index` minus one, assign its endpoints from
`last_node`/`next_node` according to the sign, and append relationship
and node to the entity list. -/
def hydrateStep (nodes : List Node) (st : HydrateState) (pair : Int × Int) :
    Option HydrateState :=
  if pair.1 = 0 then none
  else
    match pyGet nodes pair.2 with
    | none => none
    | some next_node =>
      if 0 < pair.1 then
        match st.rels.get? (pair.1 - 1).toNat with
        | none => none
        | some r =>
          some { rels := st.rels.set (pair.1 - 1).toNat
                   { r with start := st.last_node.id, «end» := next_node.id },
                 last_node := next_node,
                 entities := st.entities ++
                   [Sum.inl (pair.1 - 1).toNat, Sum.inr next_node] }
      else
        match st.rels.get? (-pair.1 - 1).toNat with
        | none => none
        | some r =>
          some { rels := st.rels.set (-pair.1 - 1).toNat
                   { r with start := next_node.id, «end» := st.last_node.id },
                 last_node := next_node,
                 entities := st.entities ++
                   [Sum.inl (-pair.1 - 1).toNat, Sum.inr next_node] }

/-- The consecutive pairs `(sequence[2*i], sequence[2*i+1])` the loop
iterates over (the sequence length is asserted even beforehand). -/
def toPairs : List Int → List (Int × Int)
  | a :: b :: rest => (a, b) :: toPairs rest
  | _ => []

/-- Run the decompression loop over the pair list, threading the state;
a failing iteration aborts the whole call. -/
def runSteps (nodes : List Node) : List (Int × Int) → HydrateState →
    Option HydrateState
  | [], st => some st
  | pair :: rest, st =>
    match hydrateStep nodes st pair with
    | none => none
    | some st' => runSteps nodes rest st'

/-- Materialise one accumulated entity against the final relationship
store: an index becomes the relationship object in its final state. -/
def materialize (rels : List Relationship) : Sum Nat Node → Option PEntity
  | Sum.inl i => (rels.get? i).map PEntity.r
  | Sum.inr nd => some (PEntity.n nd)

/-- `Path.hydrate(nodes, rels, sequence)` together with the final state
of the relationship list it mutates: assert the node list nonempty and
the sequence of even length, run the loop over the pairs, then build the
Path from the accumulated alternating entity list.  Any assertion or
index failure yields `none` (the hydration call raises). -/
def Path.hydrateWithState (nodes : List Node) (rels : List Relationship)
    (sequence : List Int) : Option (Path × List Relationship) :=
  if nodes.length < 1 then none
  else if ¬ sequence.length % 2 = 0 then none
  else
    match nodes with
    | [] => none
    | n0 :: _ =>
      match runSteps nodes (toPairs sequence) ⟨rels, n0, []⟩ with
      | none => none
      | some st =>
        match optMapList (materialize st.rels) st.entities with
        | none => none
        | some ents =>
          match Path.init n0 ents with
          | none => none
          | some p => some (p, st.rels)

/-- `Path.hydrate(nodes, rels, sequence)`: the constructed Path. -/
def Path.hydrate (nodes : List Node) (rels : List Relationship)
    (sequence : List Int) : Option Path :=
  (Path.hydrateWithState nodes rels sequence).map Prod.fst

/-- Universe of values an entity or path may be compared against with
`==`: the module's own graph values and a plain foreign value such as an
integer. -/
inductive PyVal where
  | node (nd : Node)
  | rel (rl : Relationship)
  | path (p : Path)
  | int (n : Int)
deriving DecidableEq

/-- Python attribute lookup `other.id`: `some v` when the value has an
`id` attribute with (possibly `None`) content `v`; `none` models the
`AttributeError` raised by values without one (a Path or an integer). -/
def PyVal.idAttr : PyVal → Option (Option Int)
  | .node nd => some nd.id
  | .rel rl => some rl.id
  | .path _ => none
  | .int _ => none

/-- `Entity.__eq__`: `self.id == other.id`, with `AttributeError` caught
and turned into `False`.  Two absent ids (`None == None`) compare
equal. -/
def Entity.eq (self_id : Option Int) (other : PyVal) : Bool :=
  match PyVal.idAttr other with
  | some other_id => self_id == other_id
  | none => false

/-- `Entity.__ne__`: `not self.__eq__(other)`. -/
def Entity.ne (self_id : Option Int) (other : PyVal) : Bool :=
  ! Entity.eq self_id other

/-- Python tuple equality on the `relationships` tuples: equal lengths
and element-wise `Relationship.__eq__` (inherited `Entity.__eq__`, id
comparison). -/
def relTupleEq (xs ys : List Relationship) : Bool :=
  xs.length == ys.length &&
    (List.zip xs ys).all (fun p => Entity.eq p.1.id (PyVal.rel p.2))

/-- `Path.__eq__`: `self.start == other.start and
self.relationships == other.relationships`, with `AttributeError`
caught and turned into `False`.  Against a Node or an integer the
attribute lookup `other.start` raises and is caught; against a
Relationship, `other.start` is an identifier (or `None`), which has no
`id` attribute, so the inner node comparison is `False` and the
conjunction short-circuits to `False`. -/
def Path.eq (p : Path) (other : PyVal) : Bool :=
  match other with
  | .path q =>
      Entity.eq p.start_node.id (PyVal.node q.start_node) &&
        relTupleEq p.relationships q.relationships
  | .node _ => false
  | .rel _ => false
  | .int _ => false

/-- `Path.__ne__`: `not self.__eq__(other)`. -/
def Path.ne (p : Path) (other : PyVal) : Bool :=
  ! Path.eq p other

/-- Model of Python `hash` on an entity id, as used by
`Entity.__hash__` (`hash(self.id)`): the hash of a small non-negative
integer is the integer itself, and the hash of `None` is some fixed
value, modelled as `0`.  Server-assigned ids are non-negative, so the
magnitude is taken. -/
def entityHash (id : Option Int) : Nat :=
  match id with
  | none => 0
  | some n => n.natAbs

/-- `Path.__hash__`: start with the start node's hash and fold an
exclusive-or of each relationship's hash over the tuple. -/
def Path.hash (p : Path) : Nat :=
  p.relationships.foldl (fun v r => v ^^^ entityHash r.id)
    (entityHash p.start_node.id)

/-- The fields of a Relationship other than its endpoints: the part path
decompression never touches. -/
def relCore (r : Relationship) : Option Int × String × Props :=
  (r.id, r.type, r.properties)

/-- Flatten a list of (relationship index, node) pairs into the
alternating entity list the decompression loop accumulates. -/
def entPairsFlat : List (Nat × Node) → List (Sum Nat Node)
  | [] => []
  | (i, nd) :: rest => Sum.inl i :: Sum.inr nd :: entPairsFlat rest

/-- Flatten a list of (relationship, node) pairs into an alternating
materialised entity list. -/
def pentFlat : List (Relationship × Node) → List PEntity
  | [] => []
  | (r, nd) :: rest => PEntity.r r :: PEntity.n nd :: pentFlat rest

/-- A value exposes a resolvable identifier when it has an `id`
attribute whose content is an actual identifier, not `None`. -/
def hasResolvableId (v : PyVal) : Bool :=
  match PyVal.idAttr v with
  | some (some _) => true
  | _ => false

lemma entPairsFlat_append (l1 l2 : List (Nat × Node)) :
    entPairsFlat (l1 ++ l2) = entPairsFlat l1 ++ entPairsFlat l2 := by
  induction l1 with
  | nil => rfl
  | cons a rest ih => cases a; simp [entPairsFlat, ih]

lemma map_set_eq {α β : Type} (f : α → β) :
    ∀ (l : List α) (i : Nat) (a a' : α), l.get? i = some a → f a' = f a →
      (l.set i a').map f = l.map f := by
  intro l
  induction l with
  | nil => intro i a a' h _; simp at h
  | cons x xs ih =>
    intro i a a' h hf
    cases i with
    | zero =>
      simp at h
      subst h
      simp [hf]
    | succ j =>
      simp at h
      show f x :: (xs.set j a').map f = f x :: xs.map f
      rw [ih j a a' (by simpa using h) hf]

lemma hydrateStep_frame {nodes : List Node} {st st' : HydrateState}
    {pair : Int × Int} (h : hydrateStep nodes st pair = some st') :
    st'.rels.map relCore = st.rels.map relCore := by
  unfold hydrateStep at h
  split at h
  · simp at h
  · split at h
    · simp at h
    · split at h
      · split at h
        · simp at h
        · rename_i r hr
          simp only [Option.some.injEq] at h
          subst h
          exact map_set_eq relCore st.rels _ r _ hr rfl
      · split at h
        · simp at h
        · rename_i r hr
          simp only [Option.some.injEq] at h
          subst h
          exact map_set_eq relCore st.rels _ r _ hr rfl

lemma hydrateStep_ents {nodes : List Node} {st st' : HydrateState}
    {pair : Int × Int} (h : hydrateStep nodes st pair = some st') :
    ∃ i nd, st'.entities = st.entities ++ [Sum.inl i, Sum.inr nd] := by
  unfold hydrateStep at h
  split at h
  · simp at h
  · split at h
    · simp at h
    · split at h
      · split at h
        · simp at h
        · simp only [Option.some.injEq] at h
          subst h
          exact ⟨_, _, rfl⟩
      · split at h
        · simp at h
        · simp only [Option.some.injEq] at h
          subst h
          exact ⟨_, _, rfl⟩

lemma runSteps_frame {nodes : List Node} :
    ∀ (pairs : List (Int × Int)) (st st' : HydrateState),
      runSteps nodes pairs st = some st' →
      st'.rels.map relCore = st.rels.map relCore := by
  intro pairs
  induction pairs with
  | nil => intro st st' h; simp [runSteps] at h; subst h; rfl
  | cons a rest ih =>
    intro st st' h
    unfold runSteps at h
    cases hstep : hydrateStep nodes st a with
    | none => rw [hstep] at h; simp at h
    | some st1 =>
      rw [hstep] at h
      exact (ih st1 st' h).trans (hydrateStep_frame hstep)

lemma runSteps_ents {nodes : List Node} :
    ∀ (pairs : List (Int × Int)) (st st' : HydrateState),
      runSteps nodes pairs st = some st' →
      ∃ l, st'.entities = st.entities ++ entPairsFlat l := by
  intro pairs
  induction pairs with
  | nil =>
    intro st st' h; simp [runSteps] at h; subst h
    exact ⟨[], by simp [entPairsFlat]⟩
  | cons a rest ih =>
    intro st st' h
    unfold runSteps at h
    cases hstep : hydrateStep nodes st a with
    | none => rw [hstep] at h; simp at h
    | some st1 =>
      rw [hstep] at h
      rcases hydrateStep_ents hstep with ⟨i, nd, h1⟩
      rcases ih st1 st' h with ⟨l, h2⟩
      refine ⟨(i, nd) :: l, ?_⟩
      rw [h2, h1]
      simp [entPairsFlat]

lemma optMapList_flat :
    ∀ (l : List (Nat × Node)) (rels : List Relationship) (ents : List PEntity),
      optMapList (materialize rels) (entPairsFlat l) = some ents →
      ∃ rl : List (Relationship × Node),
        ents = pentFlat rl ∧ rl.map Prod.snd = l.map Prod.snd := by
  intro l
  induction l with
  | nil =>
    intro rels ents h
    simp [entPairsFlat, optMapList] at h
    exact ⟨[], by simp [pentFlat, h.symm]⟩
  | cons a rest ih =>
    intro rels ents h
    cases a with
    | mk i nd =>
      rw [show entPairsFlat ((i, nd) :: rest) =
        Sum.inl i :: Sum.inr nd :: entPairsFlat rest from rfl] at h
      unfold optMapList at h
      cases hri : materialize rels (Sum.inl i) with
      | none => rw [hri] at h; simp at h
      | some e1 =>
        rw [hri] at h
        unfold optMapList at h
        rw [show materialize rels (Sum.inr nd) = some (PEntity.n nd)
          from rfl] at h
        cases hrest : optMapList (materialize rels) (entPairsFlat rest) with
        | none => rw [hrest] at h; simp at h
        | some ents' =>
          rw [hrest] at h
          simp only [Option.some.injEq] at h
          simp only [materialize, Option.map_eq_some'] at hri
          rcases hri with ⟨r, _, hre⟩
          rcases ih rels ents' hrest with ⟨rl', hrl1, hrl2⟩
          refine ⟨(r, nd) :: rl', ?_, ?_⟩
          · rw [← h, ← hre, hrl1]; simp [pentFlat]
          · simp [hrl2]

lemma sliceEven_pentFlat : ∀ (rl : List (Relationship × Node)),
    sliceEven (pentFlat rl) = rl.map (fun q => PEntity.r q.1) := by
  intro rl
  induction rl with
  | nil => rfl
  | cons a rest ih => cases a; simp [pentFlat, sliceEven, ih]

lemma sliceOdd_pentFlat : ∀ (rl : List (Relationship × Node)),
    sliceOdd (pentFlat rl) = rl.map (fun q => PEntity.n q.2) := by
  intro rl
  induction rl with
  | nil => rfl
  | cons a rest ih => cases a; simp [pentFlat, sliceOdd, ih]

lemma optMapList_asNode_map : ∀ (l : List (Relationship × Node)),
    optMapList PEntity.asNode? (l.map (fun q => PEntity.n q.2)) =
      some (l.map Prod.snd) := by
  intro l
  induction l with
  | nil => rfl
  | cons a rest ih =>
    rw [List.map_cons]
    unfold optMapList
    rw [ih]
    rfl

lemma optMapList_asRel_map : ∀ (l : List (Relationship × Node)),
    optMapList PEntity.asRel? (l.map (fun q => PEntity.r q.1)) =
      some (l.map Prod.fst) := by
  intro l
  induction l with
  | nil => rfl
  | cons a rest ih =>
    rw [List.map_cons]
    unfold optMapList
    rw [ih]
    rfl

lemma init_pentFlat (n0 : Node) (rl : List (Relationship × Node)) :
    Path.init n0 (pentFlat rl) =
      some ⟨n0, rl.map Prod.snd, rl.map Prod.fst⟩ := by
  unfold Path.init
  rw [sliceOdd_pentFlat, sliceEven_pentFlat, optMapList_asNode_map,
    optMapList_asRel_map]

lemma hydrateWithState_inv {nodes : List Node} {rels : List Relationship}
    {sequence : List Int} {p : Path} {rels' : List Relationship}
    (h : Path.hydrateWithState nodes rels sequence = some (p, rels')) :
    ∃ n0 ns st ents, nodes = n0 :: ns ∧
      runSteps nodes (toPairs sequence) ⟨rels, n0, []⟩ = some st ∧
      optMapList (materialize st.rels) st.entities = some ents ∧
      Path.init n0 ents = some p ∧
      rels' = st.rels := by
  unfold Path.hydrateWithState at h
  split at h
  · simp at h
  · split at h
    · simp at h
    · split at h
      · simp at h
      · rename_i n0 ns _
        cases hfold : runSteps (n0 :: ns) (toPairs sequence)
            ⟨rels, n0, []⟩ with
        | none => rw [hfold] at h; simp at h
        | some st =>
          rw [hfold] at h
          dsimp only at h
          cases hmat : optMapList (materialize st.rels) st.entities with
          | none => rw [hmat] at h; simp at h
          | some ents =>
            rw [hmat] at h
            dsimp only at h
            cases hinit : Path.init n0 ents with
            | none => rw [hinit] at h; simp at h
            | some p' =>
              rw [hinit] at h
              dsimp only at h
              simp only [Option.some.injEq, Prod.mk.injEq] at h
              exact ⟨n0, ns, st, ents, rfl, hfold, hmat,
                h.1 ▸ hinit, h.2.symm⟩

lemma runSteps_zero_none (nodes : List Node) :
    ∀ (pairs : List (Int × Int)) (st : HydrateState),
      (∃ b, ((0 : Int), b) ∈ pairs) →
      runSteps nodes pairs st = none := by
  intro pairs
  induction pairs with
  | nil => intro st h; rcases h with ⟨b, hb⟩; simp at hb
  | cons a rest ih =>
    intro st h
    rcases h with ⟨b, hb⟩
    rcases List.mem_cons.mp hb with heq | hmem
    · subst heq
      simp [runSteps, hydrateStep]
    · unfold runSteps
      cases hstep : hydrateStep nodes st a with
      | none => rfl
      | some st' => exact ih st' ⟨b, hmem⟩

lemma zero_at_even_mem :
    ∀ (i : Nat) (seq : List Int), seq.length % 2 = 0 →
      seq.get? (2 * i) = some 0 →
      ∃ b, ((0 : Int), b) ∈ toPairs seq := by
  intro i
  induction i with
  | zero =>
    intro seq hlen hget
    match seq with
    | [] => simp at hget
    | [a] => simp at hlen
    | a :: b :: rest =>
      simp at hget
      subst hget
      exact ⟨b, by simp [toPairs]⟩
  | succ j ih =>
    intro seq hlen hget
    match seq with
    | [] => simp at hget
    | [a] =>
      rw [show 2 * (j + 1) = 2 * j + 1 + 1 from by ring] at hget
      simp at hget
    | a :: b :: rest =>
      have hlen' : rest.length % 2 = 0 := by simp at hlen; omega
      have hget' : rest.get? (2 * j) = some 0 := by
        rw [show 2 * (j + 1) = 2 * j + 1 + 1 from by ring] at hget
        simpa using hget
      rcases ih rest hlen' hget' with ⟨c, hc⟩
      exact ⟨c, by simp [toPairs, hc]⟩

lemma contains_eq_false_of_not_mem :
    ∀ (l : Props) (k : String), k ∉ l.map Prod.fst →
      Entity.contains l k = false := by
  intro l k h
  simp only [Entity.contains, List.any_eq_false]
  intro x hx
  simp only [beq_iff_eq]
  intro hk
  exact h (by simpa [hk] using List.mem_map_of_mem Prod.fst hx)

lemma dropNull_keys_sub :
    ∀ (props : PropsIn) (k : String),
      k ∈ (dropNull props).map Prod.fst → k ∈ props.map Prod.fst := by
  intro props
  induction props with
  | nil => intro k h; simp [dropNull] at h
  | cons a rest ih =>
    intro k h
    cases hv : a.2 with
    | none =>
      rw [show dropNull (a :: rest) = dropNull rest by
        simp [dropNull, hv]] at h
      exact List.mem_map.mpr (by
        rcases List.mem_map.mp (ih k h) with ⟨x, hx, hk⟩
        exact ⟨x, List.mem_cons_of_mem a hx, hk⟩)
    | some v =>
      rw [show dropNull (a :: rest) = (a.1, v) :: dropNull rest by
        simp [dropNull, hv]] at h
      simp only [List.map_cons, List.mem_cons] at h ⊢
      rcases h with h | h
      · exact Or.inl h
      · exact Or.inr (ih k h)

lemma null_key_not_in_dropNull :
    ∀ (props : PropsIn) (k : String),
      (props.map Prod.fst).Nodup → (k, (none : Option Val)) ∈ props →
      k ∉ (dropNull props).map Prod.fst := by
  intro props
  induction props with
  | nil => intro k _ hmem; simp at hmem
  | cons a rest ih =>
    intro k hnd hmem
    simp only [List.map_cons, List.nodup_cons] at hnd
    rcases List.mem_cons.mp hmem with heq | hmem'
    · subst heq
      rw [show dropNull ((k, (none : Option Val)) :: rest) = dropNull rest by
        simp [dropNull]]
      intro hk
      exact hnd.1 (dropNull_keys_sub rest k hk)
    · have hkrest : k ∈ rest.map Prod.fst := by
        simpa using List.mem_map_of_mem Prod.fst hmem'
      have hne : a.1 ≠ k := fun he => hnd.1 (he ▸ hkrest)
      cases hv : a.2 with
      | none =>
        rw [show dropNull (a :: rest) = dropNull rest by simp [dropNull, hv]]
        exact ih k hnd.2 hmem'
      | some v =>
        rw [show dropNull (a :: rest) = (a.1, v) :: dropNull rest by
          simp [dropNull, hv]]
        simp only [List.map_cons, List.mem_cons]
        rintro (h | h)
        · exact hne h.symm
        · exact ih k hnd.2 hmem' h

lemma get_default_of_contains_false {l : Props} {k : String}
    (h : Entity.contains l k = false) (d : Option Val) :
    Entity.get l k d = d := by
  unfold Entity.get
  cases hf : l.find? (fun p => p.1 == k) with
  | none => rfl
  | some x =>
    have hx := List.find?_some hf
    have hmem := List.mem_of_find?_eq_some hf
    simp only [Entity.contains, List.any_eq_false] at h
    exact absurd hx (by simpa using h x hmem)

lemma zip_all_relEq_refl : ∀ (l : List Relationship),
    (List.zip l l).all (fun p => Entity.eq p.1.id (PyVal.rel p.2)) = true := by
  intro l
  induction l with
  | nil => rfl
  | cons a rest ih =>
    simp only [List.zip_cons_cons, List.all_cons, Bool.and_eq_true]
    exact ⟨by simp [Entity.eq, PyVal.idAttr], ih⟩

lemma relTupleEq_refl (l : List Relationship) : relTupleEq l l = true := by
  simp [relTupleEq, zip_all_relEq_refl]

lemma xor_foldl_perm :
    ∀ {l l' : List Nat}, l.Perm l' → ∀ init : Nat,
      l.foldl (fun a b => a ^^^ b) init =
        l'.foldl (fun a b => a ^^^ b) init := by
  intro l l' h
  induction h with
  | nil => intro _; rfl
  | cons x _ ih => intro init; simp only [List.foldl_cons]; exact ih _
  | swap x y l =>
    intro init
    simp only [List.foldl_cons]
    rw [Nat.xor_assoc, Nat.xor_assoc, Nat.xor_comm x y]
  | trans _ _ ih1 ih2 => intro init; rw [ih1, ih2]

lemma hash_eq_foldl_map (p : Path) :
    Path.hash p = (p.relationships.map (fun r => entityHash r.id)).foldl
      (fun a b => a ^^^ b) (entityHash p.start_node.id) := by
  rw [List.foldl_map]
  rfl

lemma relTupleEq_map_hash :
    ∀ (xs ys : List Relationship), relTupleEq xs ys = true →
      xs.map (fun r => entityHash r.id) =
        ys.map (fun r => entityHash r.id) := by
  intro xs
  induction xs with
  | nil =>
    intro ys h
    cases ys with
    | nil => rfl
    | cons y ys' => simp [relTupleEq] at h
  | cons x xs' ih =>
    intro ys h
    cases ys with
    | nil => simp [relTupleEq] at h
    | cons y ys' =>
      simp only [relTupleEq, List.zip_cons_cons, List.all_cons,
        List.length_cons, Bool.and_eq_true, beq_iff_eq,
        Nat.add_right_cancel_iff] at h
      rcases h with ⟨hlen, hhead, htail⟩
      have hid : x.id = y.id := by
        have := hhead
        simp only [Entity.eq, PyVal.idAttr, beq_iff_eq] at this
        exact this
      simp only [List.map_cons, hid]
      rw [ih ys' (by simp [relTupleEq, hlen, htail])]

/-- C1: forward path decompression.  For nodes `[A(id=0), B(id=1),
C(id=2)]`, unbound relationships `[R1(LIKES), R2(KNOWS)]` and sequence
`[1, 1, 2, 2]`, `Path.hydrate` returns a path whose node sequence is
`(A, B, C)`, whose relationship sequence is `(R1, R2)` with
`R1.start = A.id`, `R1.end = B.id`, `R2.start = B.id`, `R2.end = C.id`,
whose length is `2`, whose start is `A` and whose end is `C`. -/
theorem C1_forward_decompression :
    ∃ p : Path,
      Path.hydrate
        [Node.hydrate 0 [] [], Node.hydrate 1 [] [], Node.hydrate 2 [] []]
        [Relationship.hydrate_unbound 11 "LIKES" [],
         Relationship.hydrate_unbound 12 "KNOWS" []]
        [1, 1, 2, 2] = some p ∧
      Path.nodes p =
        [Node.hydrate 0 [] [], Node.hydrate 1 [] [], Node.hydrate 2 [] []] ∧
      p.relationships.map (fun r => (r.id, r.type)) =
        [(some 11, "LIKES"), (some 12, "KNOWS")] ∧
      p.relationships.map Relationship.start =
        [(Node.hydrate 0 [] []).id, (Node.hydrate 1 [] []).id] ∧
      p.relationships.map Relationship.«end» =
        [(Node.hydrate 1 [] []).id, (Node.hydrate 2 [] []).id] ∧
      Path.len p = 2 ∧
      Path.start p = Node.hydrate 0 [] [] ∧
      Path.«end» p = Node.hydrate 2 [] [] := by
  refine ⟨⟨Node.hydrate 0 [] [], [Node.hydrate 1 [] [], Node.hydrate 2 [] []],
    [⟨some 11, some 0, some 1, "LIKES", []⟩,
     ⟨some 12, some 1, some 2, "KNOWS", []⟩]⟩, ?_⟩
  decide

/-- C2: reverse-direction and self-loop decompression.  Every loop
iteration whose relationship selector is negative assigns
`relationship.start = next_node.id` and
`relationship.end = last_node.id` to the relationship at index
`|selector| - 1`, with no restriction relating `next_node` and
`last_node`; concretely, nodes `[A(id=0), B(id=1)]`, relationships
`[R1]` and sequence `[-1, 0]` yield a self-loop path of length 1 with
node sequence `(A, A)` and `R1.start = R1.end = A.id`. -/
theorem C2_reverse_self_loop_decompression :
    (∀ (nodes : List Node) (st : HydrateState) (rel_sel node_idx : Int)
        (next_node : Node) (r : Relationship),
      rel_sel < 0 →
      pyGet nodes node_idx = some next_node →
      st.rels.get? (-rel_sel - 1).toNat = some r →
      hydrateStep nodes st (rel_sel, node_idx) =
        some { rels := st.rels.set (-rel_sel - 1).toNat
                 { r with start := next_node.id, «end» := st.last_node.id },
               last_node := next_node,
               entities := st.entities ++
                 [Sum.inl (-rel_sel - 1).toNat, Sum.inr next_node] }) ∧
    (∃ p : Path,
      Path.hydrate [Node.hydrate 0 [] [], Node.hydrate 1 [] []]
        [Relationship.hydrate_unbound 11 "KNOWS" []] [-1, 0] = some p ∧
      Path.nodes p = [Node.hydrate 0 [] [], Node.hydrate 0 [] []] ∧
      Path.len p = 1 ∧
      p.relationships.map (fun r => (r.start, r.«end»)) =
        [((Node.hydrate 0 [] []).id, (Node.hydrate 0 [] []).id)]) := by
  constructor
  · intro nodes st rel_sel node_idx next_node r hneg hnext hr
    have hz : ¬ rel_sel = 0 := by omega
    have hpos : ¬ 0 < rel_sel := by omega
    have htn : (-rel_sel - 1).toNat = (-rel_sel).toNat - 1 := by omega
    simp only [List.get?_eq_getElem?, htn] at hr
    simp [hydrateStep, hz, hpos, hnext, hr]
  · refine ⟨⟨Node.hydrate 0 [] [], [Node.hydrate 0 [] []],
      [⟨some 11, some 0, some 0, "KNOWS", []⟩]⟩, ?_⟩
    decide

/-- Witness for C2: the reverse assignment at a concrete self-loop
input. -/
theorem C2_reverse_self_loop_witness :
    hydrateStep [Node.hydrate 5 [] []]
      ⟨[Relationship.hydrate_unbound 7 "T" []], Node.hydrate 5 [] [], []⟩
      (-1, 0) =
      some ⟨[⟨some 7, some 5, some 5, "T", []⟩], Node.hydrate 5 [] [],
        [Sum.inl 0, Sum.inr (Node.hydrate 5 [] [])]⟩ :=
  C2_reverse_self_loop_decompression.1 [Node.hydrate 5 [] []]
    ⟨[Relationship.hydrate_unbound 7 "T" []], Node.hydrate 5 [] [], []⟩
    (-1) 0 (Node.hydrate 5 [] []) (Relationship.hydrate_unbound 7 "T" [])
    (by decide) (by decide) (by decide)

/-- C3: precondition enforcement.  An odd-length sequence, an empty node
list, or a zero relationship selector at an even position of the
sequence makes `Path.hydrate` fail without producing a Path. -/
theorem C3_precondition_enforcement :
    ∀ (nodes : List Node) (rels : List Relationship) (sequence : List Int),
      (sequence.length % 2 = 1 ∨ nodes = [] ∨
        ∃ i, sequence.get? (2 * i) = some 0) →
      Path.hydrate nodes rels sequence = none := by
  intro nodes rels sequence h
  rcases h with hodd | hempty | ⟨i, hzero⟩
  · have hne : ¬ sequence.length % 2 = 0 := by omega
    simp [Path.hydrate, Path.hydrateWithState, hne]
  · subst hempty
    simp [Path.hydrate, Path.hydrateWithState]
  · by_cases hpar : sequence.length % 2 = 0
    · match nodes with
      | [] => simp [Path.hydrate, Path.hydrateWithState]
      | n0 :: ns =>
        rcases zero_at_even_mem i sequence hpar hzero with ⟨b, hb⟩
        have hfold := runSteps_zero_none (n0 :: ns) (toPairs sequence)
          ⟨rels, n0, []⟩ ⟨b, hb⟩
        simp [Path.hydrate, Path.hydrateWithState, hpar, hfold]
    · simp [Path.hydrate, Path.hydrateWithState, hpar]

/-- Witness for C3: a zero relationship selector at a concrete input. -/
theorem C3_precondition_witness :
    Path.hydrate [Node.hydrate 0 [] []] [] [0, 0] = none :=
  C3_precondition_enforcement [Node.hydrate 0 [] []] [] [0, 0]
    (Or.inr (Or.inr ⟨0, rfl⟩))

/-- C4 counterexample: two entities neither of which exposes a
resolvable identifier (both ids absent) nevertheless compare equal, so
equality is not equivalent to both sides exposing resolvable and equal
identifiers. -/
theorem C4_entity_eq_counterexample :
    Entity.eq (Node.mk none [] []).id (PyVal.node (Node.mk none [] []))
      = true ∧
    hasResolvableId (PyVal.node (Node.mk none [] [])) = false := by
  decide

/-- C4 (amended): `x == y` is true exactly when `y` exposes an `id`
attribute and the two (possibly absent) identifiers compare equal, two
absent identifiers counting as equal; comparing an entity to a value
without an `id` attribute, such as a plain integer or a Path, yields
not-equal and never raises. -/
theorem C4_entity_eq_amended :
    (∀ (self_id : Option Int) (other : PyVal),
       Entity.eq self_id other = true ↔
         ∃ oid, PyVal.idAttr other = some oid ∧ self_id = oid) ∧
    (∀ (self_id : Option Int) (m : Int),
       Entity.eq self_id (PyVal.int m) = false) ∧
    (∀ (self_id : Option Int) (p : Path),
       Entity.eq self_id (PyVal.path p) = false) := by
  refine ⟨?_, fun _ _ => rfl, fun _ _ => rfl⟩
  intro self_id other
  cases other <;> simp [Entity.eq, PyVal.idAttr]

/-- Witness for C4: the amended equivalence at a concrete hydrated
node compared with itself. -/
theorem C4_entity_eq_witness :
    Entity.eq (Node.hydrate 1 [] []).id
      (PyVal.node (Node.hydrate 1 [] [])) = true :=
  (C4_entity_eq_amended.1 (Node.hydrate 1 [] []).id
    (PyVal.node (Node.hydrate 1 [] []))).mpr ⟨some 1, rfl, rfl⟩

/-- C5: null-property filtering.  Properties hydrated through
`Node.hydrate` or `Relationship.hydrate` are the input mapping with
every null-valued entry dropped; a null-valued key is indistinguishable
from an absent key (hydration with the entry equals hydration without
it), membership is false and `get` returns the default for such a key;
concretely, `Node.hydrate 1 {Person} {name: Ann, nickname: None}` has
`name`, lacks `nickname`, and has exactly one property. -/
theorem C5_null_property_filtering :
    (∀ (id_ : Int) (labels : List String) (props : PropsIn),
       (Node.hydrate id_ labels props).properties = dropNull props ∧
       Node.hydrate id_ labels props =
         Node.hydrate id_ labels (props.filter (fun q => q.2.isSome))) ∧
    (∀ (id_ : Int) (s e : Option Int) (t : String) (props : PropsIn),
       (Relationship.hydrate id_ s e t props).properties = dropNull props) ∧
    (∀ (id_ : Int) (labels : List String) (props : PropsIn) (k : String)
        (d : Option Val),
       (props.map Prod.fst).Nodup → (k, (none : Option Val)) ∈ props →
       Entity.contains (Node.hydrate id_ labels props).properties k
         = false ∧
       Entity.get (Node.hydrate id_ labels props).properties k d = d) ∧
    (Entity.contains (Node.hydrate 1 ["Person"]
        [("name", some (Val.str "Ann")), ("nickname", none)]).properties
        "name" = true ∧
     Entity.get (Node.hydrate 1 ["Person"]
        [("name", some (Val.str "Ann")), ("nickname", none)]).properties
        "nickname" none = none ∧
     Entity.len (Node.hydrate 1 ["Person"]
        [("name", some (Val.str "Ann")), ("nickname", none)]).properties
        = 1) := by
  refine ⟨?_, ?_, ?_, by decide, by decide, by decide⟩
  · intro id_ labels props
    constructor
    · rfl
    · unfold Node.hydrate entityProperties dictMerge
      congr 1
      induction props with
      | nil => rfl
      | cons a rest ih =>
        cases hv : a.2 with
        | none => simp [dropNull, hv, List.filter] at ih ⊢; exact ih
        | some v => simp [dropNull, hv, List.filter] at ih ⊢; exact ih
  · intro id_ s e t props
    rfl
  · intro id_ labels props k d hnd hmem
    have hni := null_key_not_in_dropNull props k hnd hmem
    have hcf : Entity.contains (dropNull props) k = false :=
      contains_eq_false_of_not_mem _ _ hni
    exact ⟨hcf, get_default_of_contains_false hcf d⟩

/-- Witness for C5: the null-keyed property behaves as absent at a
concrete input. -/
theorem C5_null_property_witness :
    Entity.contains (Node.hydrate 2 [] [("x", none)]).properties "x"
      = false ∧
    Entity.get (Node.hydrate 2 [] [("x", none)]).properties "x"
      (some (Val.int 3)) = some (Val.int 3) :=
  C5_null_property_filtering.2.2.1 2 [] [("x", none)] "x"
    (some (Val.int 3)) (by decide) (by decide)

/-- C6: path equality.  Two Paths compare equal exactly when their start
nodes compare equal and their relationship tuples compare equal
element-wise in order; the remaining nodes are not compared (two paths
agreeing on start node and relationships are equal whatever their other
nodes are), and comparing a Path to a foreign value such as an integer
or a Node yields not-equal rather than raising. -/
theorem C6_path_equality :
    (∀ p q : Path, Path.eq p (PyVal.path q) =
       (Entity.eq p.start_node.id (PyVal.node q.start_node) &&
        relTupleEq p.relationships q.relationships)) ∧
    (∀ (a : Node) (rest1 rest2 : List Node) (rels : List Relationship),
       Path.eq ⟨a, rest1, rels⟩ (PyVal.path ⟨a, rest2, rels⟩) = true) ∧
    (∀ (p : Path) (m : Int), Path.eq p (PyVal.int m) = false) ∧
    (∀ (p : Path) (nd : Node), Path.eq p (PyVal.node nd) = false) := by
  refine ⟨fun _ _ => rfl, ?_, fun _ _ => rfl, fun _ _ => rfl⟩
  intro a rest1 rest2 rels
  simp [Path.eq, Entity.eq, PyVal.idAttr, relTupleEq_refl]

/-- C7: path hashing is an order-insensitive exclusive-or combination of
the start node's hash and the relationships' hashes: paths with equal
start-node ids whose relationship lists are permutations of one another
hash equal, and equal paths hash equal. -/
theorem C7_path_hash_xor :
    (∀ p q : Path, p.start_node.id = q.start_node.id →
       p.relationships.Perm q.relationships → Path.hash p = Path.hash q) ∧
    (∀ p q : Path, Path.eq p (PyVal.path q) = true →
       Path.hash p = Path.hash q) := by
  constructor
  · intro p q hstart hperm
    rw [hash_eq_foldl_map, hash_eq_foldl_map, hstart]
    exact xor_foldl_perm (hperm.map _) _
  · intro p q heq
    simp only [Path.eq, Bool.and_eq_true] at heq
    rcases heq with ⟨hstart, hrels⟩
    have hid : p.start_node.id = q.start_node.id := by
      simp only [Entity.eq, PyVal.idAttr, beq_iff_eq] at hstart
      exact hstart
    rw [hash_eq_foldl_map, hash_eq_foldl_map, hid,
      relTupleEq_map_hash _ _ hrels]

/-- Witness for C7: two concrete paths with swapped relationship order
hash equal. -/
theorem C7_path_hash_witness :
    Path.hash ⟨Node.hydrate 0 [] [], [],
      [Relationship.hydrate 21 (some 0) (some 1) "A" [],
       Relationship.hydrate 22 (some 1) (some 0) "B" []]⟩ =
    Path.hash ⟨Node.hydrate 0 [] [], [],
      [Relationship.hydrate 22 (some 1) (some 0) "B" [],
       Relationship.hydrate 21 (some 0) (some 1) "A" []]⟩ :=
  C7_path_hash_xor.1 _ _ rfl (List.Perm.swap _ _ _)

/-- C8: path shape invariant.  Every Path produced by a successful
`Path.hydrate` call has one more node than relationships, its length is
the number of relationships, its start is the first input node, and its
end is the last node of the traversal order. -/
theorem C8_path_shape_invariant :
    ∀ (nodes : List Node) (rels : List Relationship) (sequence : List Int)
      (p : Path) (rels' : List Relationship),
      Path.hydrateWithState nodes rels sequence = some (p, rels') →
      (Path.nodes p).length = p.relationships.length + 1 ∧
      Path.len p = p.relationships.length ∧
      nodes.head? = some (Path.start p) ∧
      (Path.nodes p).getLast? = some (Path.«end» p) := by
  intro nodes rels sequence p rels' h
  rcases hydrateWithState_inv h with
    ⟨n0, ns, st, ents, hn, hrun, hmat, hinit, hrels⟩
  rcases runSteps_ents _ _ _ hrun with ⟨l, hents⟩
  rw [hents] at hmat
  simp only [List.nil_append] at hmat
  rcases optMapList_flat l st.rels ents hmat with ⟨rl, hrl, _⟩
  subst hrl
  rw [init_pentFlat] at hinit
  simp only [Option.some.injEq] at hinit
  subst hinit
  refine ⟨?_, ?_, ?_, ?_⟩
  · simp [Path.nodes]
  · rfl
  · rw [hn]; rfl
  · exact List.getLast?_eq_getLast_of_ne_nil _

/-- Witness for C8: the shape invariant at a concrete hydration. -/
theorem C8_path_shape_witness :
    (Path.nodes ⟨Node.hydrate 0 [] [], [Node.hydrate 1 [] []],
        [⟨some 7, some 0, some 1, "T", []⟩]⟩).length =
      (Path.mk (Node.hydrate 0 [] []) [Node.hydrate 1 [] []]
        [⟨some 7, some 0, some 1, "T", []⟩]).relationships.length + 1 ∧
    Path.len ⟨Node.hydrate 0 [] [], [Node.hydrate 1 [] []],
        [⟨some 7, some 0, some 1, "T", []⟩]⟩ =
      (Path.mk (Node.hydrate 0 [] []) [Node.hydrate 1 [] []]
        [⟨some 7, some 0, some 1, "T", []⟩]).relationships.length ∧
    [Node.hydrate 0 [] [], Node.hydrate 1 [] []].head? =
      some (Path.start ⟨Node.hydrate 0 [] [], [Node.hydrate 1 [] []],
        [⟨some 7, some 0, some 1, "T", []⟩]⟩) ∧
    (Path.nodes ⟨Node.hydrate 0 [] [], [Node.hydrate 1 [] []],
        [⟨some 7, some 0, some 1, "T", []⟩]⟩).getLast? =
      some (Path.«end» ⟨Node.hydrate 0 [] [], [Node.hydrate 1 [] []],
        [⟨some 7, some 0, some 1, "T", []⟩]⟩) :=
  C8_path_shape_invariant
    [Node.hydrate 0 [] [], Node.hydrate 1 [] []]
    [Relationship.hydrate_unbound 7 "T" []] [1, 1]
    ⟨Node.hydrate 0 [] [], [Node.hydrate 1 [] []],
      [⟨some 7, some 0, some 1, "T", []⟩]⟩
    [⟨some 7, some 0, some 1, "T", []⟩] (by decide)

/-- C9: frame property of path decompression.  A successful
`Path.hydrate` call changes only the `start`/`end` endpoint fields of
the relationship store it threads: every relationship's id, type and
properties, and the length of the store, are unchanged.  The input node
objects and the sequence are not part of the mutable state of the
embedding at all. -/
theorem C9_hydrate_frame :
    ∀ (nodes : List Node) (rels : List Relationship) (sequence : List Int)
      (p : Path) (rels' : List Relationship),
      Path.hydrateWithState nodes rels sequence = some (p, rels') →
      rels'.map relCore = rels.map relCore ∧ rels'.length = rels.length := by
  intro nodes rels sequence p rels' h
  rcases hydrateWithState_inv h with
    ⟨n0, ns, st, ents, hn, hrun, hmat, hinit, hrels⟩
  have hframe := runSteps_frame _ _ _ hrun
  subst hrels
  refine ⟨hframe, ?_⟩
  have := congrArg List.length hframe
  simpa using this

/-- Witness for C9: the frame property at a concrete hydration. -/
theorem C9_hydrate_frame_witness :
    ([⟨some 8, some 2, some 3, "S", []⟩] : List Relationship).map relCore =
      [Relationship.hydrate_unbound 8 "S" []].map relCore ∧
    ([⟨some 8, some 2, some 3, "S", []⟩] : List Relationship).length =
      [Relationship.hydrate_unbound 8 "S" []].length :=
  C9_hydrate_frame
    [Node.hydrate 2 [] [], Node.hydrate 3 [] []]
    [Relationship.hydrate_unbound 8 "S" []] [1, 1]
    ⟨Node.hydrate 2 [] [], [Node.hydrate 3 [] []],
      [⟨some 8, some 2, some 3, "S", []⟩]⟩
    [⟨some 8, some 2, some 3, "S", []⟩] (by decide)

/-- C10: subscript access `entity[name]` equals `get(name)` with the
`None` default, and returns the absent marker rather than failing for a
missing key. -/
theorem C10_getitem_total :
    (∀ (properties : Props) (name : String),
       Entity.getItem properties name = Entity.get properties name none) ∧
    (∀ (properties : Props) (name : String),
       Entity.contains properties name = false →
       Entity.getItem properties name = none) := by
  constructor
  · intro properties name
    rfl
  · intro properties name h
    show Entity.get properties name none = none
    exact get_default_of_contains_false h none

/-- Witness for C10: subscripting a missing key at a concrete input. -/
theorem C10_getitem_witness :
    Entity.getItem [("a", Val.int 1)] "b" = none :=
  C10_getitem_total.2 [("a", Val.int 1)] "b" (by decide)

end NeoGraph
